import Mathlib

/-!
Shallow embedding of the peer-mesh bootstrap protocol in
`src/cluster/src/communication.rs` (Materialize), together with proofs of the
claims about it.

Modelling conventions:
* Machine integers (`u64`, `usize`) become `Nat`; where a claim depends on the
  64-bit range, the bound `< 2 ^ 64` appears as an explicit hypothesis.
* Network nondeterminism is made explicit: each loop of the source consumes a
  list of events (one per I/O interaction) and the loop functions are total,
  returning a `pending` outcome when the event list runs out before the loop
  would exit.
* A Rust panic (integer underflow, out-of-bounds slice index, failed `expect`)
  is modelled as a distinct `panic` outcome.
* Sockets are modelled by the information the protocol attaches to them: the
  peer index they connect to and the epoch exchanged on them.
-/

namespace Communication

/-- The epoch type of the protocol: `struct Epoch { time: u64, nonce: u64 }`.
Fields are `Nat`; 64-bit bounds are stated as hypotheses where needed. -/
structure Epoch where
  time : Nat
  nonce : Nat
deriving DecidableEq, Repr

/-- The derived `Ord` instance of the Rust `Epoch`: lexicographic comparison on
the fields in declaration order, `time` first, then `nonce`. -/
def Epoch.compare (a b : Epoch) : Ordering :=
  match Ord.compare a.time b.time with
  | .eq => Ord.compare a.nonce b.nonce
  | o => o

/-- The derived `PartialOrd`/`Ord` strict order on `Epoch`. -/
def Epoch.lt (a b : Epoch) : Prop :=
  a.compare b = .lt

instance : LT Epoch := ⟨Epoch.lt⟩

instance (a b : Epoch) : Decidable (a < b) :=
  inferInstanceAs (Decidable (Epoch.compare a b = .lt))

/-! ### Byte-level serialization (`Epoch::write` / `Epoch::read`)

`write_u64`/`read_u64` on a tokio stream transfer 8 bytes big-endian. We model
the stream contents as a `List Nat` of bytes. -/

/-- Big-endian byte encoding of `n` into `k` bytes (most significant first),
as produced by `write_u64` for `k = 8` (the value is taken mod `2 ^ (8 * k)`,
which is the identity for an in-range `u64`). -/
def beBytes : Nat → Nat → List Nat
  | 0, _ => []
  | k + 1, n => beBytes k (n / 256) ++ [n % 256]

/-- Big-endian byte decoding, as performed by `read_u64` on 8 bytes. -/
def beDecode (bs : List Nat) : Nat :=
  bs.foldl (fun acc b => acc * 256 + b) 0

/-- Rust `Epoch::write`: `write_u64(time)` then `write_u64(nonce)`, 16 bytes. -/
def Epoch.writeBytes (e : Epoch) : List Nat :=
  beBytes 8 e.time ++ beBytes 8 e.nonce

/-- Rust `Epoch::read`: `read_u64()` into `time`, then `read_u64()` into `nonce`.
Returns `none` (an I/O error) when fewer than 16 bytes are available. -/
def Epoch.readBytes (bs : List Nat) : Option Epoch :=
  if bs.length < 16 then none
  else some { time := beDecode (bs.take 8), nonce := beDecode ((bs.drop 8).take 8) }

theorem beBytes_length (k n : Nat) : (beBytes k n).length = k := by
  induction k generalizing n with
  | zero => rfl
  | succ k ih => simp [beBytes, ih]

theorem beDecode_append_singleton (bs : List Nat) (b : Nat) :
    beDecode (bs ++ [b]) = beDecode bs * 256 + b := by
  simp [beDecode]

theorem beDecode_beBytes (k n : Nat) : beDecode (beBytes k n) = n % 256 ^ k := by
  induction k generalizing n with
  | zero => simp [beBytes, beDecode, Nat.mod_one]
  | succ k ih =>
    rw [beBytes, beDecode_append_singleton, ih, Nat.pow_succ', Nat.mod_mul]
    ring

/-! ### Error taxonomy (`CreateSocketsError`) -/

/-- Rust `enum CreateSocketsError`. The `std::io::Error` payload of `Bind` is
abstracted to a `Nat` identifier; the payloads mirror the Rust variants. -/
inductive CreateSocketsError where
  | bind (address : String) (error : Nat)
  | epochMismatch (peerIndex : Nat) (peerEpoch : Epoch) (myEpoch : Epoch)
  | reconnect (peerIndex : Nat)
deriving DecidableEq, Repr

/-- Rust `CreateSocketsError::is_fatal`: `matches!(self, Self::Bind { .. })`. -/
def CreateSocketsError.is_fatal : CreateSocketsError → Bool
  | .bind _ _ => true
  | _ => false

/-! ### Sockets

A socket established by the protocol is modelled by the information the
protocol attaches to it: the peer index it is connected to (the index dialed
in `connect_lower`, or the index read off the wire in `accept_higher`) and the
epoch exchanged on it. -/

/-- A connected socket, as visible to the protocol. -/
structure Conn where
  index : Nat
  epoch : Epoch
deriving DecidableEq, Repr

/-! ### Listener (`accept_higher`)

Each iteration of the accept loop consumes one `AcceptEvent`, making the
network nondeterminism explicit. -/

/-- The network input consumed by one iteration of the accept loop. -/
inductive AcceptEvent where
  /-- The `accept` helper failed: an I/O error in `listener.accept()`,
  `set_nodelay`, or while reading the 8-byte peer index. The loop logs at INFO
  and continues. -/
  | acceptErr
  /-- The `accept` helper returned a connection whose first 8 bytes decoded to
  `index`. `exchanged` is the outcome of `exchange_epochs`: `none` models an
  I/O error during the epoch exchange, `some e` a successfully read peer
  epoch. -/
  | conn (index : Nat) (exchanged : Option Epoch)
deriving DecidableEq, Repr

/-- Result of one iteration of the accept loop body. -/
inductive AcceptStep where
  | cont (sockets : List (Option Conn))
  | fail (error : CreateSocketsError)
  | panicked
deriving DecidableEq, Repr

/-- The body of the `while` loop in `accept_higher`, acting on the
partially-filled `sockets` vector. Mirrors the source order: accept errors
continue; then `sockets[index - offset]` is examined (a Rust panic — underflow
of `index - offset` or an out-of-bounds index — is the `panicked` outcome);
a filled slot raises `Reconnect`; an epoch-exchange I/O error continues; then
the epoch comparison stores, continues, or raises `EpochMismatch`. -/
def acceptStep (myIndex : Nat) (myEpoch : Epoch) (sockets : List (Option Conn)) :
    AcceptEvent → AcceptStep
  | .acceptErr => .cont sockets
  | .conn index exchanged =>
    let offset := myIndex + 1
    if h : offset ≤ index ∧ index - offset < sockets.length then
      if (sockets.get ⟨index - offset, h.2⟩).isSome then
        .fail (.reconnect index)
      else
        match exchanged with
        | none => .cont sockets
        | some peerEpoch =>
          match Epoch.compare peerEpoch myEpoch with
          | .lt => .cont sockets
          | .gt => .fail (.epochMismatch index peerEpoch myEpoch)
          | .eq => .cont (sockets.set (index - offset) (some ⟨index, peerEpoch⟩))
    else .panicked

/-- Outcome of the accept loop. `pending` records that the modelled event list
ran out while slots were still empty (the real loop would be blocked in
`accept`). -/
inductive AcceptOut where
  | pending (sockets : List (Option Conn))
  | fail (error : CreateSocketsError)
  | panicked
  | ok (sockets : List Conn)
deriving DecidableEq, Repr

/-- The `while sockets.iter().any(|s| s.is_none())` loop of `accept_higher`.
The while condition is tested before each event is consumed: with every slot
filled the loop exits without touching the remaining events. -/
def acceptLoop (myIndex : Nat) (myEpoch : Epoch) (sockets : List (Option Conn)) :
    List AcceptEvent → AcceptOut
  | [] =>
    if sockets.any (fun s => s.isNone) then .pending sockets
    else .ok (sockets.filterMap (fun s => s))
  | e :: rest =>
    if sockets.any (fun s => s.isNone) then
      match acceptStep myIndex myEpoch sockets e with
      | .cont s => acceptLoop myIndex myEpoch s rest
      | .fail err => .fail err
      | .panicked => .panicked
    else .ok (sockets.filterMap (fun s => s))

/-- Rust `accept_higher`: asserts `my_index < n_peers`, starts from
`(offset..n_peers).map(|_| None)` and runs the accept loop. On success the
options are unwrapped in place. -/
def accept_higher (myIndex : Nat) (myEpoch : Epoch) (nPeers : Nat)
    (events : List AcceptEvent) : AcceptOut :=
  if myIndex < nPeers then
    acceptLoop myIndex myEpoch (List.replicate (nPeers - (myIndex + 1)) none) events
  else .panicked

/-! ### Dialer (`connect_lower`)

The `handshake` helper is wrapped in an unbounded retry, so each loop
iteration eventually observes one successful handshake; the event consumed per
iteration is the peer epoch read during that handshake. The socket produced is
connected to the peer at `addresses[sockets.len()]`. -/

/-- Outcome of the dial loop. -/
inductive DialOut where
  | pending (myEpoch : Option Epoch) (sockets : List Conn)
  | fail (error : CreateSocketsError)
  | panicked
  | ok (epoch : Epoch) (sockets : List Conn)
deriving DecidableEq, Repr

/-- The `while sockets.len() < my_index` loop of `connect_lower`. On the first
successful handshake `my_epoch` is unset: the process adopts `peer_epoch` and
pushes the socket. Afterwards: a smaller peer epoch drops the socket and loops
without pushing (redialing the same index), a greater one raises
`EpochMismatch`, an equal one pushes. At exit `my_epoch.expect("must exist")`
is the `panicked` outcome when `my_epoch` is still unset. -/
def connectLoop (myIndex : Nat) (myEpoch : Option Epoch) (sockets : List Conn) :
    List Epoch → DialOut
  | [] =>
    if sockets.length < myIndex then .pending myEpoch sockets
    else
      match myEpoch with
      | some epoch => .ok epoch sockets
      | none => .panicked
  | peerEpoch :: rest =>
    if sockets.length < myIndex then
      match myEpoch with
      | some epoch =>
        match Epoch.compare peerEpoch epoch with
        | .lt => connectLoop myIndex myEpoch sockets rest
        | .gt => .fail (.epochMismatch sockets.length peerEpoch epoch)
        | .eq => connectLoop myIndex myEpoch (sockets ++ [⟨sockets.length, peerEpoch⟩]) rest
      | none =>
        connectLoop myIndex (some peerEpoch) (sockets ++ [⟨sockets.length, peerEpoch⟩]) rest
    else
      match myEpoch with
      | some epoch => .ok epoch sockets
      | none => .panicked

theorem connectLoop_nil (myIndex : Nat) (myEpoch : Option Epoch) (sockets : List Conn) :
    connectLoop myIndex myEpoch sockets [] =
      (if sockets.length < myIndex then .pending myEpoch sockets
       else match myEpoch with
            | some epoch => .ok epoch sockets
            | none => .panicked) := by
  rw [connectLoop.eq_def]

theorem connectLoop_cons (myIndex : Nat) (myEpoch : Option Epoch) (sockets : List Conn)
    (peerEpoch : Epoch) (rest : List Epoch) :
    connectLoop myIndex myEpoch sockets (peerEpoch :: rest) =
      (if sockets.length < myIndex then
        match myEpoch with
        | some epoch =>
          match Epoch.compare peerEpoch epoch with
          | .lt => connectLoop myIndex myEpoch sockets rest
          | .gt => .fail (.epochMismatch sockets.length peerEpoch epoch)
          | .eq => connectLoop myIndex myEpoch (sockets ++ [⟨sockets.length, peerEpoch⟩]) rest
        | none =>
          connectLoop myIndex (some peerEpoch) (sockets ++ [⟨sockets.length, peerEpoch⟩]) rest
      else
        match myEpoch with
        | some epoch => .ok epoch sockets
        | none => .panicked) := by
  rw [connectLoop.eq_def]

theorem connectLoop_exit (myIndex : Nat) (myEpoch : Option Epoch) (sockets : List Conn)
    (events : List Epoch) (h : ¬ sockets.length < myIndex) :
    connectLoop myIndex myEpoch sockets events =
      (match myEpoch with
       | some epoch => .ok epoch sockets
       | none => .panicked) := by
  cases events with
  | nil => rw [connectLoop_nil, if_neg h]
  | cons pe rest => rw [connectLoop_cons, if_neg h]

theorem connectLoop_cons_none (myIndex : Nat) (sockets : List Conn) (peerEpoch : Epoch)
    (rest : List Epoch) (h : sockets.length < myIndex) :
    connectLoop myIndex none sockets (peerEpoch :: rest) =
      connectLoop myIndex (some peerEpoch) (sockets ++ [⟨sockets.length, peerEpoch⟩]) rest := by
  rw [connectLoop_cons, if_pos h]

theorem connectLoop_cons_lt (myIndex : Nat) (epoch : Epoch) (sockets : List Conn)
    (peerEpoch : Epoch) (rest : List Epoch) (h : sockets.length < myIndex)
    (hc : Epoch.compare peerEpoch epoch = .lt) :
    connectLoop myIndex (some epoch) sockets (peerEpoch :: rest) =
      connectLoop myIndex (some epoch) sockets rest := by
  rw [connectLoop_cons, if_pos h]
  show ((match Epoch.compare peerEpoch epoch with
    | Ordering.lt => connectLoop myIndex (some epoch) sockets rest
    | Ordering.gt => DialOut.fail (.epochMismatch sockets.length peerEpoch epoch)
    | Ordering.eq =>
        connectLoop myIndex (some epoch)
          (sockets ++ [Conn.mk sockets.length peerEpoch]) rest : DialOut)) = _
  rw [hc]

theorem connectLoop_cons_gt (myIndex : Nat) (epoch : Epoch) (sockets : List Conn)
    (peerEpoch : Epoch) (rest : List Epoch) (h : sockets.length < myIndex)
    (hc : Epoch.compare peerEpoch epoch = .gt) :
    connectLoop myIndex (some epoch) sockets (peerEpoch :: rest) =
      .fail (.epochMismatch sockets.length peerEpoch epoch) := by
  rw [connectLoop_cons, if_pos h]
  show ((match Epoch.compare peerEpoch epoch with
    | Ordering.lt => connectLoop myIndex (some epoch) sockets rest
    | Ordering.gt => DialOut.fail (.epochMismatch sockets.length peerEpoch epoch)
    | Ordering.eq =>
        connectLoop myIndex (some epoch)
          (sockets ++ [Conn.mk sockets.length peerEpoch]) rest : DialOut)) = _
  rw [hc]

theorem connectLoop_cons_eq (myIndex : Nat) (epoch : Epoch) (sockets : List Conn)
    (peerEpoch : Epoch) (rest : List Epoch) (h : sockets.length < myIndex)
    (hc : Epoch.compare peerEpoch epoch = .eq) :
    connectLoop myIndex (some epoch) sockets (peerEpoch :: rest) =
      connectLoop myIndex (some epoch) (sockets ++ [⟨sockets.length, peerEpoch⟩]) rest := by
  rw [connectLoop_cons, if_pos h]
  show ((match Epoch.compare peerEpoch epoch with
    | Ordering.lt => connectLoop myIndex (some epoch) sockets rest
    | Ordering.gt => DialOut.fail (.epochMismatch sockets.length peerEpoch epoch)
    | Ordering.eq =>
        connectLoop myIndex (some epoch)
          (sockets ++ [Conn.mk sockets.length peerEpoch]) rest : DialOut)) = _
  rw [hc]

/-- Rust `connect_lower`: asserts `my_index > 0` and `my_index <= addresses.len()`,
then runs the dial loop from an unset epoch and no sockets. -/
def connect_lower (myIndex nAddresses : Nat) (events : List Epoch) : DialOut :=
  if 0 < myIndex ∧ myIndex ≤ nAddresses then
    connectLoop myIndex none [] events
  else .panicked

/-! ### Listen-address derivation

The source matches `addresses[my_index]` against the regex `:(\d{1,5})$`:
a match requires a literal colon followed by one to five digits running to the
end of the string, and captures those digits. Since the digits must extend to
the end and a colon is not a digit, the only candidate colon is the last one;
the semantics below computes the maximal trailing digit run and checks that it
is 1–5 long and immediately preceded by a colon. (Rust `\d` is Unicode-aware;
as in the spec, digits are taken to be the ASCII digits `'0'..='9'`.) -/

/-- The maximal run of digits at the end of the string. -/
def trailingDigits (s : List Char) : List Char :=
  (s.reverse.takeWhile fun c => c.isDigit).reverse

/-- Rust `port_re.captures(my_address)`: the captured digit group of `:(\d{1,5})$`,
or `none` when the regex does not match. -/
def portCapture (s : List Char) : Option (List Char) :=
  let ds := trailingDigits s
  if 1 ≤ ds.length ∧ ds.length ≤ 5 ∧
      (s.reverse.dropWhile fun c => c.isDigit).head? = some ':' then
    some ds
  else none

/-- The `listen_address` computed by `create_sockets`:
`format!("0.0.0.0:{}", &cap[1])` on a match, the address verbatim otherwise. -/
def listenAddressChars (s : List Char) : List Char :=
  match portCapture s with
  | some ds => "0.0.0.0:".data ++ ds
  | none => s

/-- String-level wrapper for `listen_address`. -/
def listenAddress (s : String) : String :=
  String.mk (listenAddressChars s.data)

/-! ### Bind retry and `create_sockets` -/

/-- Rust `Retry::default().max_tries(10)` in the listener-bind phase. -/
def bindMaxTries : Nat := 10

/-- Rust `initial_backoff(Duration::from_secs(1))` in the listener-bind phase. -/
def bindInitialBackoffSecs : Nat := 1

/-- Rust `clamp_backoff(Duration::from_secs(1))` in the listener-bind phase. -/
def bindClampBackoffSecs : Nat := 1

/-- Rust `Retry::retry_async`: runs attempt `i`, then `i + 1`, ..., until one
succeeds or `fuel` further tries are exhausted, returning the last error.
`runRetry attempt 0 (n - 1)` performs at most `n` tries, as `max_tries(n)`
does. The listener is abstracted to `Unit`, bind I/O errors to `Nat`. -/
def runRetry (attempt : Nat → Except Nat Unit) (i : Nat) : Nat → Except Nat Unit
  | 0 => attempt i
  | fuel + 1 =>
    match attempt i with
    | .ok u => .ok u
    | .error _ => runRetry attempt (i + 1) fuel

/-- Outcome of one `create_sockets` attempt. -/
inductive CreateOut where
  | pending
  | fail (error : CreateSocketsError)
  | panicked
  | ok (connections : List (Option Conn))
deriving DecidableEq, Repr

/-- The tail of `create_sockets` after the listener is bound: obtain
`(my_epoch, sockets_lower)` (the `lowerResult` argument holds the epoch-mint
for index 0 or the `connect_lower` outcome otherwise), run `accept_higher`,
and assemble `sockets_lower.map(Some) ++ [None] ++ sockets_higher.map(Some)`. -/
def afterBind (myIndex nAddresses : Nat) (lowerResult : DialOut)
    (acceptEvents : List AcceptEvent) : CreateOut :=
  match lowerResult with
  | .pending _ _ => .pending
  | .fail e => .fail e
  | .panicked => .panicked
  | .ok myEpoch lower =>
    match accept_higher myIndex myEpoch nAddresses acceptEvents with
    | .pending _ => .pending
    | .fail e => .fail e
    | .panicked => .panicked
    | .ok higher => .ok (lower.map some ++ [none] ++ higher.map some)

/-- Rust `create_sockets`: derive the listen address from `addresses[my_index]`
(indexing panics when out of bounds), bind with the bounded retry (exhaustion
becomes the fatal `Bind` error), then either mint an epoch (index 0; the
nondeterministic mint is the `minted` parameter) or dial the lower peers, then
accept the higher peers and assemble the result vector (`afterBind`). -/
def create_sockets (myIndex : Nat) (addresses : List String)
    (bindAttempts : Nat → Except Nat Unit) (minted : Epoch)
    (dialEvents : List Epoch) (acceptEvents : List AcceptEvent) : CreateOut :=
  if h : myIndex < addresses.length then
    match runRetry bindAttempts 0 (bindMaxTries - 1) with
    | .error e => .fail (.bind (listenAddress (addresses.get ⟨myIndex, h⟩)) e)
    | .ok _ =>
      afterBind myIndex addresses.length
        (if myIndex = 0 then .ok minted []
         else connect_lower myIndex addresses.length dialEvents)
        acceptEvents
  else .panicked

/-! ### Driver loop and handoff (`initialize_networking`) -/

/-- The `let sockets = loop { ... }` driver in `initialize_networking`,
consuming one attempt outcome per iteration: a success breaks out, a fatal
error bails to the caller, any other error logs and retries. `none` means the
modelled outcome list ran out while the loop was still retrying. -/
def driverLoop {S : Type} :
    List (Except CreateSocketsError S) → Option (Except CreateSocketsError S)
  | [] => none
  | .ok sockets :: _ => some (.ok sockets)
  | .error e :: rest =>
    if e.is_fatal then some (.error e) else driverLoop rest

/-- Transport family of a stream (`mz_ore::netio::Stream`). -/
inductive Transport where
  | tcp
  | unix
deriving DecidableEq, Repr

/-- A stream as seen by the handoff: its transport family plus an abstract
identity. -/
structure Sock where
  transport : Transport
  id : Nat
deriving DecidableEq, Repr

/-- Rust `Stream::is_tcp`. -/
def Sock.is_tcp (s : Sock) : Bool :=
  match s.transport with
  | .tcp => true
  | .unix => false

/-- Rust `Stream::is_unix`. -/
def Sock.is_unix (s : Sock) : Bool :=
  match s.transport with
  | .tcp => false
  | .unix => true

/-- Outcome of the post-bootstrap handoff branch of `initialize_networking`. -/
inductive HandoffOut where
  | proceedTcp (sockets : List (Option Sock))
  | proceedUnix (sockets : List (Option Sock))
  | mixError
deriving DecidableEq, Repr

/-- The handoff branch: `if sockets.iter().filter_map(|s| s.as_ref()).all(|s|
s.is_tcp())` proceed over TCP, `else if ... all(|s| s.is_unix())` proceed over
Unix, `else bail!("cannot mix TCP and Unix streams")`. -/
def handoff (sockets : List (Option Sock)) : HandoffOut :=
  if (sockets.filterMap fun s => s).all Sock.is_tcp then .proceedTcp sockets
  else if (sockets.filterMap fun s => s).all Sock.is_unix then .proceedUnix sockets
  else .mixError

/-- Overall outcome of `initialize_networking`. -/
inductive InitOut where
  | stillLooping
  | fatalError (error : CreateSocketsError)
  | mixError
  | proceed (sockets : List (Option Sock)) (transport : Transport)
deriving DecidableEq, Repr

/-- Rust `initialize_networking`: the driver loop followed by the handoff. -/
def initialize_networking
    (outcomes : List (Except CreateSocketsError (List (Option Sock)))) : InitOut :=
  match driverLoop outcomes with
  | none => .stillLooping
  | some (.error e) => .fatalError e
  | some (.ok sockets) =>
    match handoff sockets with
    | .proceedTcp s => .proceed s .tcp
    | .proceedUnix s => .proceed s .unix
    | .mixError => .mixError

/-! ## Claims -/

/-- C5: epoch comparison is lexicographic on (time, nonce), and it is total:
for two distinct epochs exactly one of less-than and greater-than holds. -/
theorem epoch_compare_lexicographic_total (a b : Epoch) (hne : a ≠ b) :
    (Epoch.compare a b = .lt ↔
      a.time < b.time ∨ (a.time = b.time ∧ a.nonce < b.nonce)) ∧
    (Epoch.compare a b = .lt ∨ Epoch.compare a b = .gt) ∧
    ¬(Epoch.compare a b = .lt ∧ Epoch.compare a b = .gt) ∧
    (Epoch.compare a b = .gt ↔ Epoch.compare b a = .lt) := by
  have hlex : ∀ x y : Epoch, Epoch.compare x y = .lt ↔
      x.time < y.time ∨ (x.time = y.time ∧ x.nonce < y.nonce) := by
    intro x y
    unfold Epoch.compare
    rcases h : Ord.compare x.time y.time with _ | _ | _
    · replace h := Nat.compare_eq_lt.1 h
      simp
      omega
    · replace h := Nat.compare_eq_eq.1 h
      simp [Nat.compare_eq_lt]
      omega
    · replace h := Nat.compare_eq_gt.1 h
      simp
      omega
  have hgt : ∀ x y : Epoch, Epoch.compare x y = .gt ↔
      y.time < x.time ∨ (y.time = x.time ∧ y.nonce < x.nonce) := by
    intro x y
    unfold Epoch.compare
    rcases h : Ord.compare x.time y.time with _ | _ | _
    · replace h := Nat.compare_eq_lt.1 h
      simp
      omega
    · replace h := Nat.compare_eq_eq.1 h
      simp [Nat.compare_eq_gt]
      omega
    · replace h := Nat.compare_eq_gt.1 h
      simp
      omega
  have hne2 : a.time ≠ b.time ∨ a.nonce ≠ b.nonce := by
    by_contra hcon
    push_neg at hcon
    exact hne (by cases a; cases b; simp_all)
  refine ⟨hlex a b, ?_, ?_, ?_⟩
  · rw [hlex, hgt]
    omega
  · rw [hlex, hgt]
    omega
  · rw [hgt, hlex]

/-- Witness for C5 at the concrete pair (1, 5) and (1, 7). -/
theorem epoch_compare_lexicographic_total_witness :
    (Epoch.compare ⟨1, 5⟩ ⟨1, 7⟩ = .lt ↔
      (1 : Nat) < 1 ∨ ((1 : Nat) = 1 ∧ (5 : Nat) < 7)) ∧
    (Epoch.compare ⟨1, 5⟩ ⟨1, 7⟩ = .lt ∨ Epoch.compare ⟨1, 5⟩ ⟨1, 7⟩ = .gt) ∧
    ¬(Epoch.compare ⟨1, 5⟩ ⟨1, 7⟩ = .lt ∧ Epoch.compare ⟨1, 5⟩ ⟨1, 7⟩ = .gt) ∧
    (Epoch.compare ⟨1, 5⟩ ⟨1, 7⟩ = .gt ↔ Epoch.compare ⟨1, 7⟩ ⟨1, 5⟩ = .lt) :=
  epoch_compare_lexicographic_total ⟨1, 5⟩ ⟨1, 7⟩ (by decide)

/-- C6: serializing an Epoch with `Epoch::write` (time big-endian, then nonce
big-endian, 16 bytes) and deserializing with `Epoch::read` yields the original
epoch. -/
theorem epoch_write_read_roundtrip (e : Epoch)
    (htime : e.time < 2 ^ 64) (hnonce : e.nonce < 2 ^ 64) :
    Epoch.readBytes (Epoch.writeBytes e) = some e ∧
    (Epoch.writeBytes e).length = 16 := by
  have hlen : (Epoch.writeBytes e).length = 16 := by
    simp [Epoch.writeBytes, beBytes_length]
  have hpow : (256 : Nat) ^ 8 = 2 ^ 64 := by norm_num
  have htake : (Epoch.writeBytes e).take 8 = beBytes 8 e.time :=
    List.take_left' (beBytes_length 8 e.time)
  have hdrop : (Epoch.writeBytes e).drop 8 = beBytes 8 e.nonce :=
    List.drop_left' (beBytes_length 8 e.time)
  refine ⟨?_, hlen⟩
  unfold Epoch.readBytes
  rw [if_neg (by omega), htake, hdrop]
  rw [List.take_of_length_le (by rw [beBytes_length]), beDecode_beBytes, beDecode_beBytes,
    hpow, Nat.mod_eq_of_lt htime, Nat.mod_eq_of_lt hnonce]

/-- Witness for C6 at the concrete epoch (3, 77). -/
theorem epoch_write_read_roundtrip_witness :
    Epoch.readBytes (Epoch.writeBytes ⟨3, 77⟩) = some ⟨3, 77⟩ ∧
    (Epoch.writeBytes ⟨3, 77⟩).length = 16 :=
  epoch_write_read_roundtrip ⟨3, 77⟩ (by norm_num) (by norm_num)

/-- C2 counterexample: with my_index = 0, my_epoch = (1, 1) and three peers,
a first connection from peer 1 at the current epoch fills slot 0; a second,
late connection from peer 1 — an instance from the doomed generation with the
strictly smaller epoch (0, 0) — hits the filled-slot check before its epoch is
ever examined, and `accept_higher` returns the restartable `Reconnect` error,
restarting the current generation. -/
theorem accept_smaller_epoch_reconnect_counterexample :
    accept_higher 0 ⟨1, 1⟩ 3
        [.conn 1 (some ⟨1, 1⟩), .conn 1 (some ⟨0, 0⟩)] =
      .fail (.reconnect 1) ∧
    Epoch.compare ⟨0, 0⟩ ⟨1, 1⟩ = .lt ∧
    (CreateSocketsError.reconnect 1).is_fatal = false := by
  refine ⟨?_, by decide, rfl⟩
  decide

/-- C2 (amended): in the accept loop, a connection from a peer with a strictly
smaller epoch whose slot is still empty is dropped — the sockets vector is
unchanged and the loop continues with the remaining events — and no error is
raised in that iteration. (When the slot is already filled, the filled-slot
check fires first and raises the restartable `Reconnect` error before the
epoch is examined.) -/
theorem accept_smaller_epoch_dropped (myIndex : Nat) (myEpoch peerEpoch : Epoch)
    (sockets : List (Option Conn)) (index : Nat) (rest : List AcceptEvent)
    (hlo : myIndex + 1 ≤ index) (hhi : index - (myIndex + 1) < sockets.length)
    (hempty : sockets.get ⟨index - (myIndex + 1), hhi⟩ = none)
    (hlt : Epoch.compare peerEpoch myEpoch = .lt) :
    acceptStep myIndex myEpoch sockets (.conn index (some peerEpoch)) =
      .cont sockets ∧
    acceptLoop myIndex myEpoch sockets (.conn index (some peerEpoch) :: rest) =
      acceptLoop myIndex myEpoch sockets rest := by
  have hstep : acceptStep myIndex myEpoch sockets (.conn index (some peerEpoch)) =
      .cont sockets := by
    simp only [acceptStep]
    rw [dif_pos ⟨hlo, hhi⟩, if_neg (by rw [List.get_eq_getElem] at hempty; simp [hempty]), hlt]
  refine ⟨hstep, ?_⟩
  have hany : sockets.any (fun s => s.isNone) = true := by
    rw [List.any_eq_true]
    exact ⟨none, by rw [← hempty]; exact sockets.get_mem _ hhi, rfl⟩
  rw [acceptLoop, if_pos hany, hstep]

/-- Witness for C2 (amended): my_index = 0, three peers, slot for peer 1 empty,
peer 1 arrives with epoch (0, 0) < (1, 1): the connection is dropped and the
loop continues unchanged. -/
theorem accept_smaller_epoch_dropped_witness :
    acceptStep 0 ⟨1, 1⟩ [none, none] (.conn 1 (some ⟨0, 0⟩)) = .cont [none, none] ∧
    acceptLoop 0 ⟨1, 1⟩ [none, none] [.conn 1 (some ⟨0, 0⟩)] =
      acceptLoop 0 ⟨1, 1⟩ [none, none] [] :=
  accept_smaller_epoch_dropped 0 ⟨1, 1⟩ ⟨0, 0⟩ [none, none] 1 []
    (by norm_num) (by norm_num) rfl (by decide)

/-- C9: `accept_higher` never validates the peer index read off the wire. If
an inbound connection announces an index at most `my_index` (the slot
computation `index - (my_index + 1)` underflows) or at least `n_peers` (the
slot index is out of bounds), the process panics instead of treating the
connection as transient and continuing the accept loop. -/
theorem accept_unvalidated_index_panics (myIndex nPeers index : Nat)
    (myEpoch : Epoch) (exchanged : Option Epoch) (rest : List AcceptEvent)
    (hpeers : myIndex + 1 < nPeers)
    (hbad : index ≤ myIndex ∨ nPeers ≤ index) :
    accept_higher myIndex myEpoch nPeers (.conn index exchanged :: rest) =
      .panicked ∧
    acceptStep myIndex myEpoch (List.replicate (nPeers - (myIndex + 1)) none)
        (.conn index exchanged) = .panicked := by
  have hstep : acceptStep myIndex myEpoch
      (List.replicate (nPeers - (myIndex + 1)) none) (.conn index exchanged) =
      .panicked := by
    simp only [acceptStep]
    rw [dif_neg (by rw [List.length_replicate]; omega)]
  refine ⟨?_, hstep⟩
  unfold accept_higher
  rw [if_pos (by omega)]
  rw [acceptLoop, if_pos, hstep]
  rw [List.any_eq_true]
  exact ⟨none, List.mem_replicate.2 ⟨by omega, rfl⟩, rfl⟩

/-- Witness for C9: my_index = 1 among 3 peers; an inbound connection claiming
index 0 (at most my_index) panics, as does one claiming index 3 (at least
n_peers). -/
theorem accept_unvalidated_index_panics_witness :
    accept_higher 1 ⟨1, 1⟩ 3 [.conn 0 (some ⟨1, 1⟩)] = .panicked ∧
    acceptStep 1 ⟨1, 1⟩ (List.replicate (3 - (1 + 1)) none) (.conn 0 (some ⟨1, 1⟩)) =
      .panicked :=
  accept_unvalidated_index_panics 1 3 0 ⟨1, 1⟩ (some ⟨1, 1⟩) [] (by norm_num)
    (Or.inl (by norm_num))

/-! Helper lemmas for the error-classification claim. -/

theorem runRetry_error_spec (attempt : Nat → Except Nat Unit) (i fuel e : Nat)
    (h : runRetry attempt i fuel = .error e) :
    (∀ j, i ≤ j → j ≤ i + fuel → ∃ er, attempt j = .error er) ∧
    attempt (i + fuel) = .error e := by
  induction fuel generalizing i with
  | zero =>
    rw [runRetry] at h
    exact ⟨fun j h1 h2 => ⟨e, by rwa [Nat.le_antisymm h2 h1]⟩, h⟩
  | succ fuel ih =>
    rw [runRetry] at h
    rcases h0 : attempt i with er | u
    · rw [h0] at h
      obtain ⟨hall, hlast⟩ := ih (i + 1) h
      refine ⟨fun j h1 h2 => ?_, by rwa [show i + 1 + fuel = i + (fuel + 1) by omega] at hlast⟩
      rcases Nat.eq_or_lt_of_le h1 with rfl | hgt
      · exact ⟨er, h0⟩
      · exact hall j hgt (by omega)
    · rw [h0] at h
      exact absurd h (by simp)

theorem runRetry_ok_of_attempt_ok (attempt : Nat → Except Nat Unit) (fuel : Nat)
    (i j : Nat) (hij : i ≤ j) (hjf : j ≤ i + fuel) (hok : attempt j = .ok ()) :
    ∃ u, runRetry attempt i fuel = .ok u := by
  induction fuel generalizing i with
  | zero =>
    have hji : i = j := by omega
    rw [runRetry, hji]
    exact ⟨(), by rw [hok]⟩
  | succ fuel ih =>
    rw [runRetry]
    rcases h0 : attempt i with er | u
    · rcases Nat.eq_or_lt_of_le hij with rfl | hgt
      · rw [h0] at hok
        exact absurd hok (by simp)
      · exact ih (i + 1) hgt (by omega)
    · exact ⟨u, rfl⟩

theorem connectLoop_not_bind (myIndex : Nat) (myEpoch : Option Epoch)
    (sockets : List Conn) (events : List Epoch) (a : String) (g : Nat) :
    connectLoop myIndex myEpoch sockets events ≠ .fail (.bind a g) := by
  induction events generalizing myEpoch sockets with
  | nil =>
    intro h
    rw [connectLoop_nil] at h
    split at h
    · exact absurd h (by simp)
    · split at h <;> exact absurd h (by simp)
  | cons pe rest ih =>
    intro h
    by_cases hlen : sockets.length < myIndex
    · rcases myEpoch with _ | epoch
      · rw [connectLoop_cons_none _ _ _ _ hlen] at h
        exact ih _ _ h
      · rcases hc : Epoch.compare pe epoch with _ | _ | _
        · rw [connectLoop_cons_lt _ _ _ _ _ hlen hc] at h
          exact ih _ _ h
        · rw [connectLoop_cons_eq _ _ _ _ _ hlen hc] at h
          exact ih _ _ h
        · rw [connectLoop_cons_gt _ _ _ _ _ hlen hc] at h
          exact absurd h (by simp)
    · rw [connectLoop_exit _ _ _ _ hlen] at h
      rcases myEpoch with _ | epoch <;> exact absurd h (by simp)

theorem acceptStep_not_bind (myIndex : Nat) (myEpoch : Epoch)
    (sockets : List (Option Conn)) (ev : AcceptEvent) (a : String) (g : Nat) :
    acceptStep myIndex myEpoch sockets ev ≠ .fail (.bind a g) := by
  rcases ev with _ | ⟨index, exchanged⟩
  · simp [acceptStep]
  · simp only [acceptStep]
    split
    · split
      · simp
      · rcases exchanged with _ | pe
        · simp
        · rcases hc : Epoch.compare pe myEpoch <;> simp [hc]
    · simp

theorem acceptLoop_not_bind (myIndex : Nat) (myEpoch : Epoch)
    (sockets : List (Option Conn)) (events : List AcceptEvent) (a : String) (g : Nat) :
    acceptLoop myIndex myEpoch sockets events ≠ .fail (.bind a g) := by
  induction events generalizing sockets with
  | nil =>
    intro h
    rw [acceptLoop] at h
    split at h <;> exact absurd h (by simp)
  | cons ev rest ih =>
    intro h
    rw [acceptLoop] at h
    split at h
    · rcases hs : acceptStep myIndex myEpoch sockets ev with s2 | err | _ <;> rw [hs] at h
      · exact ih s2 h
      · rw [show err = CreateSocketsError.bind a g by injection h] at hs
        exact acceptStep_not_bind myIndex myEpoch sockets ev a g hs
      · exact absurd h (by simp)
    · exact absurd h (by simp)

theorem driverLoop_error_fatal {S : Type}
    (outs : List (Except CreateSocketsError S)) (r : CreateSocketsError)
    (h : driverLoop outs = some (.error r)) : r.is_fatal = true := by
  induction outs with
  | nil => exact absurd h (by simp [driverLoop])
  | cons o rest ih =>
    rcases o with e | s
    · rw [driverLoop] at h
      by_cases hf : e.is_fatal = true
      · rw [if_pos hf] at h
        have h2 := Option.some.inj h
        injection h2 with h3
        rwa [← h3]
      · rw [if_neg hf] at h
        exact ih h
    · rw [driverLoop] at h
      exact absurd (Option.some.inj h) (by simp)

/-- C3: error classification and the retry structure. `is_fatal` is true on
`Bind` and false on `EpochMismatch` and `Reconnect`; the driver loop in
`initialize_networking` returns a success as soon as one attempt succeeds,
retries `create_sockets` on every non-fatal error, and returns an error to the
caller exactly on a fatal one; and a `Bind` error is only produced by
`create_sockets` after all `bindMaxTries = 10` bind attempts (at the fixed
1-second backoff configured by `initial_backoff`/`clamp_backoff`) have
failed. -/
theorem error_classification_and_retry
    (addr : String) (ioErr pIndex : Nat) (pEpoch mEpoch : Epoch) {S : Type}
    (outs : List (Except CreateSocketsError S)) (e : CreateSocketsError) (s : S)
    (myIndex : Nat) (addresses : List String) (bindAttempts : Nat → Except Nat Unit)
    (minted : Epoch) (dialEvents : List Epoch) (acceptEvents : List AcceptEvent)
    (hbindfail : create_sockets myIndex addresses bindAttempts minted dialEvents
        acceptEvents = .fail (.bind addr ioErr)) :
    (CreateSocketsError.bind addr ioErr).is_fatal = true ∧
    (CreateSocketsError.epochMismatch pIndex pEpoch mEpoch).is_fatal = false ∧
    (CreateSocketsError.reconnect pIndex).is_fatal = false ∧
    driverLoop (.ok s :: outs) = some (.ok s) ∧
    (e.is_fatal = false → driverLoop (.error e :: outs) = driverLoop outs) ∧
    (e.is_fatal = true → driverLoop (.error e :: outs) = some (.error e)) ∧
    (∀ r : CreateSocketsError, driverLoop outs = some (.error r) → r.is_fatal = true) ∧
    (∀ j, j < bindMaxTries → ∃ er, bindAttempts j = .error er) ∧
    bindMaxTries = 10 ∧ bindInitialBackoffSecs = 1 ∧ bindClampBackoffSecs = 1 := by
  have hlow_nb : connect_lower myIndex addresses.length dialEvents ≠
      DialOut.fail (.bind addr ioErr) := by
    intro hlow
    rw [connect_lower] at hlow
    split at hlow
    · exact connectLoop_not_bind _ _ _ _ _ _ hlow
    · exact absurd hlow (by simp)
  have hhigh_nb : ∀ myEpoch2 : Epoch,
      accept_higher myIndex myEpoch2 addresses.length acceptEvents ≠
        AcceptOut.fail (.bind addr ioErr) := by
    intro myEpoch2 hhigh
    rw [accept_higher] at hhigh
    split at hhigh
    · exact acceptLoop_not_bind _ _ _ _ _ _ hhigh
    · exact absurd hhigh (by simp)
  have hafter : ∀ lowerResult : DialOut,
      afterBind myIndex addresses.length lowerResult acceptEvents =
          .fail (.bind addr ioErr) →
        lowerResult = .fail (.bind addr ioErr) ∨
        ∃ myEpoch lower, lowerResult = .ok myEpoch lower ∧
          accept_higher myIndex myEpoch addresses.length acceptEvents =
            .fail (.bind addr ioErr) := by
    intro lowerResult hab
    rcases lowerResult with ⟨me0, s0⟩ | err | _ | ⟨myEpoch, lower⟩
    · exact absurd hab (by simp [afterBind])
    · rw [show err = CreateSocketsError.bind addr ioErr by
        simpa [afterBind] using hab]
      exact Or.inl rfl
    · exact absurd hab (by simp [afterBind])
    · refine Or.inr ⟨myEpoch, lower, rfl, ?_⟩
      rw [afterBind] at hab
      rcases hhigh : accept_higher myIndex myEpoch addresses.length acceptEvents with
        _ | err2 | _ | higher <;> rw [hhigh] at hab
      · exact absurd hab (by simp)
      · rw [show err2 = CreateSocketsError.bind addr ioErr by simpa using hab]
      · exact absurd hab (by simp)
      · exact absurd hab (by simp)
  have hretry : runRetry bindAttempts 0 (bindMaxTries - 1) = .error ioErr := by
    by_cases hidx : myIndex < addresses.length
    case neg =>
      rw [create_sockets, dif_neg hidx] at hbindfail
      exact absurd hbindfail (by simp)
    case pos =>
      rw [create_sockets, dif_pos hidx] at hbindfail
      rcases hr : runRetry bindAttempts 0 (bindMaxTries - 1) with er | u <;>
          rw [hr] at hbindfail
      · have hbf1 : CreateOut.fail
            (.bind (listenAddress (addresses.get ⟨myIndex, hidx⟩)) er) =
            .fail (.bind addr ioErr) := hbindfail
        have h2 : CreateSocketsError.bind (listenAddress (addresses.get ⟨myIndex, hidx⟩)) er
            = .bind addr ioErr := by injection hbf1
        injection h2 with _ h3
        rw [h3]
      · exfalso
        have hbf2 : afterBind myIndex addresses.length
            (if myIndex = 0 then DialOut.ok minted []
             else connect_lower myIndex addresses.length dialEvents) acceptEvents =
            .fail (.bind addr ioErr) := hbindfail
        rcases hafter _ hbf2 with hlow | ⟨myEpoch, lower, hlow, hhigh⟩
        · by_cases h0 : myIndex = 0
          · rw [if_pos h0] at hlow
            exact absurd hlow (by simp)
          · rw [if_neg h0] at hlow
            exact absurd hlow hlow_nb
        · exact absurd hhigh (hhigh_nb myEpoch)
  refine ⟨rfl, rfl, rfl, rfl, ?_, ?_, driverLoop_error_fatal outs, ?_, rfl, rfl, rfl⟩
  · intro hf
    rw [driverLoop, if_neg (by simp [hf])]
  · intro hf
    rw [driverLoop, if_pos hf]
  · intro j hj
    obtain ⟨hall, _⟩ := runRetry_error_spec bindAttempts 0 (bindMaxTries - 1) ioErr hretry
    refine hall j (Nat.zero_le j) ?_
    simp only [bindMaxTries] at hj ⊢
    omega

/-- Witness for C3: with every bind attempt failing, `create_sockets` at
index 0 of a one-address list returns the fatal `Bind` error, and the driver
facts hold at a concrete outcome list. -/
theorem error_classification_and_retry_witness :
    (CreateSocketsError.bind "a" 9).is_fatal = true ∧
    (CreateSocketsError.epochMismatch 1 ⟨2, 2⟩ ⟨1, 1⟩).is_fatal = false ∧
    (CreateSocketsError.reconnect 1).is_fatal = false ∧
    driverLoop ((.ok 0 : Except CreateSocketsError Nat) :: [.error (.reconnect 1)]) =
      some (.ok 0) ∧
    ((CreateSocketsError.reconnect 2).is_fatal = false →
      driverLoop ((.error (.reconnect 2) : Except CreateSocketsError Nat) ::
          [.error (.reconnect 1)]) =
        driverLoop ([.error (.reconnect 1)] : List (Except CreateSocketsError Nat))) ∧
    ((CreateSocketsError.reconnect 2).is_fatal = true →
      driverLoop ((.error (.reconnect 2) : Except CreateSocketsError Nat) ::
          [.error (.reconnect 1)]) =
        some (.error (.reconnect 2))) ∧
    (∀ r : CreateSocketsError,
      driverLoop ([.error (.reconnect 1)] : List (Except CreateSocketsError Nat)) =
        some (.error r) → r.is_fatal = true) ∧
    (∀ j, j < bindMaxTries → ∃ er, (fun i => (.error i : Except Nat Unit)) j = .error er) ∧
    bindMaxTries = 10 ∧ bindInitialBackoffSecs = 1 ∧ bindClampBackoffSecs = 1 :=
  error_classification_and_retry "a" 9 1 ⟨2, 2⟩ ⟨1, 1⟩ [.error (.reconnect 1)]
    (.reconnect 2) 0 0 ["a"] (fun i => .error i) ⟨0, 0⟩ [] [] (by decide)

/-- C8: at the post-bootstrap handoff, a socket vector that is neither all TCP
nor all Unix makes `initialize_networking` report an error to the caller
instead of restarting the protocol loop; a homogeneous vector proceeds to the
transport initializer (the vacuous all-`None` case follows the TCP branch). -/
theorem handoff_homogeneity_boundary
    (outs : List (Except CreateSocketsError (List (Option Sock))))
    (sockets : List (Option Sock))
    (hok : driverLoop outs = some (.ok sockets)) :
    ((∃ v ∈ sockets.filterMap (fun s => s), v.is_tcp = true) →
      (∃ v ∈ sockets.filterMap (fun s => s), v.is_unix = true) →
        initialize_networking outs = .mixError) ∧
    ((sockets.filterMap (fun s => s)).all Sock.is_tcp = true →
        initialize_networking outs = .proceed sockets .tcp) ∧
    ((sockets.filterMap (fun s => s)).all Sock.is_tcp = false →
      (sockets.filterMap (fun s => s)).all Sock.is_unix = true →
        initialize_networking outs = .proceed sockets .unix) := by
  have hinit : initialize_networking outs =
      (match handoff sockets with
       | .proceedTcp s => .proceed s .tcp
       | .proceedUnix s => .proceed s .unix
       | .mixError => InitOut.mixError) := by
    rw [initialize_networking, hok]
  have tcp_of_not_unix : ∀ v : Sock, v.is_unix = true → v.is_tcp = false := by
    intro v hv
    rcases v with ⟨t, i⟩
    cases t
    · simp [Sock.is_unix] at hv
    · rfl
  have unix_of_not_tcp : ∀ v : Sock, v.is_tcp = true → v.is_unix = false := by
    intro v hv
    rcases v with ⟨t, i⟩
    cases t
    · rfl
    · simp [Sock.is_tcp] at hv
  refine ⟨?_, ?_, ?_⟩
  · rintro ⟨vt, hvt, htcp⟩ ⟨vu, hvu, hunix⟩
    have halltcp : (sockets.filterMap (fun s => s)).all Sock.is_tcp = false := by
      rw [Bool.eq_false_iff]
      intro hall
      rw [List.all_eq_true] at hall
      have hvr := hall vu hvu
      rw [tcp_of_not_unix vu hunix] at hvr
      exact absurd hvr (by simp)
    have hallunix : (sockets.filterMap (fun s => s)).all Sock.is_unix = false := by
      rw [Bool.eq_false_iff]
      intro hall
      rw [List.all_eq_true] at hall
      have hvr := hall vt hvt
      rw [unix_of_not_tcp vt htcp] at hvr
      exact absurd hvr (by simp)
    rw [hinit, handoff, if_neg (by simp [halltcp]), if_neg (by simp [hallunix])]
  · intro hall
    rw [hinit, handoff, if_pos hall]
  · intro htcp hunix
    rw [hinit, handoff, if_neg (by simp [htcp]), if_pos hunix]

/-- Witness for C8 at concrete socket vectors: a mixed TCP/Unix vector is
rejected with an error, an all-TCP and an all-Unix vector proceed. -/
theorem handoff_homogeneity_boundary_witness :
    (((∃ v ∈ ([some ⟨.tcp, 0⟩, none, some ⟨.unix, 1⟩] :
          List (Option Sock)).filterMap (fun s => s), v.is_tcp = true) →
      (∃ v ∈ ([some ⟨.tcp, 0⟩, none, some ⟨.unix, 1⟩] :
          List (Option Sock)).filterMap (fun s => s), v.is_unix = true) →
        initialize_networking [.ok [some ⟨.tcp, 0⟩, none, some ⟨.unix, 1⟩]] =
          .mixError) ∧
    ((([some ⟨.tcp, 0⟩, none, some ⟨.unix, 1⟩] :
          List (Option Sock)).filterMap (fun s => s)).all Sock.is_tcp = true →
        initialize_networking [.ok [some ⟨.tcp, 0⟩, none, some ⟨.unix, 1⟩]] =
          .proceed [some ⟨.tcp, 0⟩, none, some ⟨.unix, 1⟩] .tcp) ∧
    ((([some ⟨.tcp, 0⟩, none, some ⟨.unix, 1⟩] :
          List (Option Sock)).filterMap (fun s => s)).all Sock.is_tcp = false →
      (([some ⟨.tcp, 0⟩, none, some ⟨.unix, 1⟩] :
          List (Option Sock)).filterMap (fun s => s)).all Sock.is_unix = true →
        initialize_networking [.ok [some ⟨.tcp, 0⟩, none, some ⟨.unix, 1⟩]] =
          .proceed [some ⟨.tcp, 0⟩, none, some ⟨.unix, 1⟩] .unix)) ∧
    initialize_networking [.ok [some ⟨.tcp, 0⟩, none, some ⟨.unix, 1⟩]] = .mixError :=
  ⟨handoff_homogeneity_boundary [.ok [some ⟨.tcp, 0⟩, none, some ⟨.unix, 1⟩]]
      [some ⟨.tcp, 0⟩, none, some ⟨.unix, 1⟩] rfl,
    (handoff_homogeneity_boundary [.ok [some ⟨.tcp, 0⟩, none, some ⟨.unix, 1⟩]]
      [some ⟨.tcp, 0⟩, none, some ⟨.unix, 1⟩] rfl).1
      ⟨⟨.tcp, 0⟩, by decide, rfl⟩ ⟨⟨.unix, 1⟩, by decide, rfl⟩⟩

/-- C10: per-iteration frame properties of the accept loop. An accept error
leaves the partially-filled sockets vector unchanged; an I/O error during the
epoch exchange (reached only with the slot still empty) leaves it unchanged;
and whenever an iteration continues the loop, every filled slot is carried
over verbatim, and the vector changes at all only by filling the empty slot
`index - (my_index + 1)` with a socket whose exchanged epoch equals
`my_epoch`. -/
theorem accept_step_frame (myIndex : Nat) (myEpoch : Epoch)
    (sockets : List (Option Conn)) (ev : AcceptEvent) (index : Nat) :
    (acceptStep myIndex myEpoch sockets .acceptErr = .cont sockets) ∧
    (myIndex + 1 ≤ index → index - (myIndex + 1) < sockets.length →
      sockets[index - (myIndex + 1)]? = some none →
      acceptStep myIndex myEpoch sockets (.conn index none) = .cont sockets) ∧
    (∀ s2, acceptStep myIndex myEpoch sockets ev = .cont s2 →
      (∀ i : Nat, ∀ c : Conn, sockets[i]? = some (some c) → s2[i]? = some (some c)) ∧
      (s2 ≠ sockets → ∃ idx pe, ev = .conn idx (some pe) ∧
        Epoch.compare pe myEpoch = .eq ∧
        sockets[idx - (myIndex + 1)]? = some none ∧
        s2 = sockets.set (idx - (myIndex + 1)) (some ⟨idx, pe⟩))) := by
  refine ⟨rfl, ?_, ?_⟩
  · intro h1 h2 hempty
    have hnone : sockets[index - (myIndex + 1)] = none := by
      have h3 := List.getElem?_eq_getElem h2
      rw [hempty] at h3
      exact (Option.some.inj h3).symm
    simp only [acceptStep]
    rw [dif_pos ⟨h1, h2⟩, if_neg (by simp [hnone])]
  · intro s2 hstep
    rcases ev with _ | ⟨idx, ex⟩
    · have hs2 : s2 = sockets := by
        have := hstep
        simp only [acceptStep] at this
        injection this with h3
        exact h3.symm
      subst hs2
      exact ⟨fun i c hc => hc, fun hne => absurd rfl hne⟩
    · simp only [acceptStep] at hstep
      by_cases hin : myIndex + 1 ≤ idx ∧ idx - (myIndex + 1) < sockets.length
      · rw [dif_pos hin] at hstep
        by_cases hfilled : (sockets.get ⟨idx - (myIndex + 1), hin.2⟩).isSome = true
        · rw [if_pos hfilled] at hstep
          exact absurd hstep (by simp)
        · rw [if_neg hfilled] at hstep
          have hnone : sockets.get ⟨idx - (myIndex + 1), hin.2⟩ = none := by
            rcases hget : sockets.get ⟨idx - (myIndex + 1), hin.2⟩ with _ | c
            · rfl
            · rw [hget] at hfilled
              simp at hfilled
          have hnone2 : sockets[idx - (myIndex + 1)]? = some none := by
            rw [List.getElem?_eq_getElem hin.2]
            rw [List.get_eq_getElem] at hnone
            rw [hnone]
          rcases ex with _ | pe
          · have hstep2 : AcceptStep.cont sockets = AcceptStep.cont s2 := hstep
            have hs2 : s2 = sockets := by
              injection hstep2 with h3
              exact h3.symm
            subst hs2
            exact ⟨fun i c hc => hc, fun hne => absurd rfl hne⟩
          · have hstep2 : ((match Epoch.compare pe myEpoch with
                | Ordering.lt => AcceptStep.cont sockets
                | Ordering.gt =>
                    AcceptStep.fail (.epochMismatch idx pe myEpoch)
                | Ordering.eq => AcceptStep.cont
                    (sockets.set (idx - (myIndex + 1))
                      (some ⟨idx, pe⟩)) : AcceptStep)) =
                AcceptStep.cont s2 := hstep
            rcases hc : Epoch.compare pe myEpoch with _ | _ | _ <;> rw [hc] at hstep2
            · have hs2 : s2 = sockets := by
                injection hstep2 with h3
                exact h3.symm
              subst hs2
              exact ⟨fun i c hc2 => hc2, fun hne => absurd rfl hne⟩
            · have hs2 : s2 = sockets.set (idx - (myIndex + 1)) (some ⟨idx, pe⟩) := by
                injection hstep2 with h3
                exact h3.symm
              subst hs2
              refine ⟨?_, fun _ => ⟨idx, pe, rfl, hc, hnone2, rfl⟩⟩
              intro i c hci
              by_cases hij : idx - (myIndex + 1) = i
              · rw [← hij] at hci
                rw [hnone2] at hci
                exact absurd (Option.some.inj hci) (by simp)
              · rw [List.getElem?_set_ne hij]
                exact hci
            · exact absurd hstep2 (by simp)
      · rw [dif_neg hin] at hstep
        exact absurd hstep (by simp)

/-- Witness for C10 at a concrete state: my_index = 0, slot for peer 1 filled
and slot for peer 2 empty, with an equal-epoch handshake from peer 2. -/
theorem accept_step_frame_witness :
    (acceptStep 0 ⟨1, 1⟩ [some ⟨1, ⟨1, 1⟩⟩, none] .acceptErr =
      .cont [some ⟨1, ⟨1, 1⟩⟩, none]) ∧
    (0 + 1 ≤ 2 → 2 - (0 + 1) < ([some ⟨1, ⟨1, 1⟩⟩, none] : List (Option Conn)).length →
      ([some ⟨1, ⟨1, 1⟩⟩, none] : List (Option Conn))[2 - (0 + 1)]? = some none →
      acceptStep 0 ⟨1, 1⟩ [some ⟨1, ⟨1, 1⟩⟩, none] (.conn 2 none) =
        .cont [some ⟨1, ⟨1, 1⟩⟩, none]) ∧
    (∀ s2, acceptStep 0 ⟨1, 1⟩ [some ⟨1, ⟨1, 1⟩⟩, none] (.conn 2 (some ⟨1, 1⟩)) =
        .cont s2 →
      (∀ i : Nat, ∀ c : Conn, ([some ⟨1, ⟨1, 1⟩⟩, none] :
          List (Option Conn))[i]? = some (some c) → s2[i]? = some (some c)) ∧
      (s2 ≠ [some ⟨1, ⟨1, 1⟩⟩, none] → ∃ idx pe,
        AcceptEvent.conn 2 (some ⟨1, 1⟩) = .conn idx (some pe) ∧
        Epoch.compare pe ⟨1, 1⟩ = .eq ∧
        ([some ⟨1, ⟨1, 1⟩⟩, none] : List (Option Conn))[idx - (0 + 1)]? = some none ∧
        s2 = ([some ⟨1, ⟨1, 1⟩⟩, none] : List (Option Conn)).set (idx - (0 + 1))
          (some ⟨idx, pe⟩))) :=
  accept_step_frame 0 ⟨1, 1⟩ [some ⟨1, ⟨1, 1⟩⟩, none] (.conn 2 (some ⟨1, 1⟩)) 2

/-! Helper lemmas for the dial-loop claims. -/

theorem index_inv_append (sockets : List Conn) (pe : Epoch)
    (hP : ∀ i : Nat, ∀ c : Conn, sockets[i]? = some c → c.index = i) :
    ∀ i : Nat, ∀ c : Conn,
      (sockets ++ [⟨sockets.length, pe⟩])[i]? = some c → c.index = i := by
  intro i c hc
  by_cases hi : i < sockets.length
  · rw [List.getElem?_append, if_pos (by simpa using hi)] at hc
    exact hP i c hc
  · rw [List.getElem?_append, if_neg (by simpa using hi)] at hc
    rcases hik : i - sockets.length with _ | k <;> rw [hik] at hc
    · have hceq : Conn.mk sockets.length pe = c := by
        simpa using hc
      rw [← hceq]
      show sockets.length = i
      omega
    · exact absurd hc (by simp)

theorem connectLoop_ok_spec (myIndex : Nat) (events : List Epoch) :
    ∀ (myEpoch : Option Epoch) (sockets : List Conn) (outEpoch : Epoch)
      (outSockets : List Conn),
      sockets.length ≤ myIndex →
      connectLoop myIndex myEpoch sockets events = .ok outEpoch outSockets →
      outSockets.length = myIndex ∧
      (∀ e : Epoch, myEpoch = some e → outEpoch = e) ∧
      ((∀ i : Nat, ∀ c : Conn, sockets[i]? = some c → c.index = i) →
        ∀ i : Nat, ∀ c : Conn, outSockets[i]? = some c → c.index = i) := by
  induction events with
  | nil =>
    intro myEpoch sockets outEpoch outSockets hlen h
    by_cases hlt : sockets.length < myIndex
    · rw [connectLoop_nil, if_pos hlt] at h
      exact absurd h (by simp)
    · rw [connectLoop_nil, if_neg hlt] at h
      rcases myEpoch with _ | e
      · exact absurd h (by simp)
      · have h2 : DialOut.ok e sockets = .ok outEpoch outSockets := h
        injection h2 with he hs
        subst he
        subst hs
        exact ⟨by omega, fun e2 he2 => Option.some.inj he2, fun hP => hP⟩
  | cons pe rest ih =>
    intro myEpoch sockets outEpoch outSockets hlen h
    by_cases hlt : sockets.length < myIndex
    · rcases myEpoch with _ | e
      · rw [connectLoop_cons_none _ _ _ _ hlt] at h
        obtain ⟨hl, _, hidx⟩ := ih (some pe) (sockets ++ [⟨sockets.length, pe⟩])
          outEpoch outSockets (by rw [List.length_append]; simpa using hlt) h
        refine ⟨hl, fun e2 he2 => absurd he2 (by simp), fun hP => ?_⟩
        exact hidx (index_inv_append sockets pe hP)
      · rcases hc : Epoch.compare pe e with _ | _ | _
        · rw [connectLoop_cons_lt _ _ _ _ _ hlt hc] at h
          exact ih _ _ _ _ hlen h
        · rw [connectLoop_cons_eq _ _ _ _ _ hlt hc] at h
          obtain ⟨hl, hee, hidx⟩ := ih (some e) (sockets ++ [⟨sockets.length, pe⟩])
            outEpoch outSockets (by rw [List.length_append]; simpa using hlt) h
          refine ⟨hl, hee, fun hP => ?_⟩
          exact hidx (index_inv_append sockets pe hP)
        · rw [connectLoop_cons_gt _ _ _ _ _ hlt hc] at h
          exact absurd h (by simp)
    · rw [connectLoop_exit _ _ _ _ hlt] at h
      rcases myEpoch with _ | e
      · exact absurd h (by simp)
      · have h2 : DialOut.ok e sockets = .ok outEpoch outSockets := h
        injection h2 with he hs
        subst he
        subst hs
        exact ⟨by omega, fun e2 he2 => Option.some.inj he2, fun hP => hP⟩

theorem connect_lower_ok_spec (myIndex nAddresses : Nat) (events : List Epoch)
    (outEpoch : Epoch) (outSockets : List Conn)
    (h : connect_lower myIndex nAddresses events = .ok outEpoch outSockets) :
    outSockets.length = myIndex ∧
    ∀ i : Nat, ∀ c : Conn, outSockets[i]? = some c → c.index = i := by
  rw [connect_lower] at h
  split at h
  · obtain ⟨hl, _, hidx⟩ := connectLoop_ok_spec myIndex events none [] outEpoch
      outSockets (Nat.zero_le myIndex) h
    exact ⟨hl, hidx (by intro i c hc; exact absurd hc (by simp))⟩
  · exact absurd h (by simp)

/-- C4: the dial loop of `connect_lower` with `my_epoch` already set, dialing
peer `k = sockets.len()`. A smaller peer epoch drops the socket and leaves the
state unchanged, so the same peer index is redialed; a greater peer epoch
returns the restartable `EpochMismatch` error; an equal peer epoch appends the
socket, advancing `k` by one; and the loop returns `(my_epoch, sockets)`
exactly when `sockets.len() == my_index`: a state of length `my_index` returns
immediately, and any successful return has exactly `my_index` sockets. -/
theorem connect_lower_dial_loop (myIndex nAddresses : Nat) (epoch pe : Epoch)
    (sockets : List Conn) (rest events : List Epoch)
    (outEpoch : Epoch) (outSockets : List Conn)
    (hlen : sockets.length < myIndex) :
    (Epoch.compare pe epoch = .lt →
      connectLoop myIndex (some epoch) sockets (pe :: rest) =
        connectLoop myIndex (some epoch) sockets rest) ∧
    (Epoch.compare pe epoch = .gt →
      connectLoop myIndex (some epoch) sockets (pe :: rest) =
        .fail (.epochMismatch sockets.length pe epoch)) ∧
    (Epoch.compare pe epoch = .eq →
      connectLoop myIndex (some epoch) sockets (pe :: rest) =
        connectLoop myIndex (some epoch) (sockets ++ [⟨sockets.length, pe⟩]) rest) ∧
    (∀ socks2 : List Conn, socks2.length = myIndex →
      connectLoop myIndex (some epoch) socks2 events = .ok epoch socks2) ∧
    (connect_lower myIndex nAddresses events = .ok outEpoch outSockets →
      outSockets.length = myIndex) := by
  refine ⟨fun hc => connectLoop_cons_lt _ _ _ _ _ hlen hc,
    fun hc => connectLoop_cons_gt _ _ _ _ _ hlen hc,
    fun hc => connectLoop_cons_eq _ _ _ _ _ hlen hc,
    fun socks2 hl2 => ?_,
    fun h => (connect_lower_ok_spec myIndex nAddresses events outEpoch outSockets h).1⟩
  rw [connectLoop_exit _ _ _ _ (by omega)]

/-- Witness for C4 at a concrete state: my_index = 2, my_epoch = (1, 1), one
socket already held, peer epoch (0, 0) smaller. -/
theorem connect_lower_dial_loop_witness :
    ((Epoch.compare ⟨0, 0⟩ ⟨1, 1⟩ = .lt →
      connectLoop 2 (some ⟨1, 1⟩) [⟨0, ⟨1, 1⟩⟩] [⟨0, 0⟩] =
        connectLoop 2 (some ⟨1, 1⟩) [⟨0, ⟨1, 1⟩⟩] []) ∧
    (Epoch.compare ⟨0, 0⟩ ⟨1, 1⟩ = .gt →
      connectLoop 2 (some ⟨1, 1⟩) [⟨0, ⟨1, 1⟩⟩] [⟨0, 0⟩] =
        .fail (.epochMismatch ([⟨0, ⟨1, 1⟩⟩] : List Conn).length ⟨0, 0⟩ ⟨1, 1⟩)) ∧
    (Epoch.compare ⟨0, 0⟩ ⟨1, 1⟩ = .eq →
      connectLoop 2 (some ⟨1, 1⟩) [⟨0, ⟨1, 1⟩⟩] [⟨0, 0⟩] =
        connectLoop 2 (some ⟨1, 1⟩)
          ([⟨0, ⟨1, 1⟩⟩] ++ [⟨([⟨0, ⟨1, 1⟩⟩] : List Conn).length, ⟨0, 0⟩⟩]) []) ∧
    (∀ socks2 : List Conn, socks2.length = 2 →
      connectLoop 2 (some ⟨1, 1⟩) socks2 [⟨1, 1⟩, ⟨1, 1⟩] = .ok ⟨1, 1⟩ socks2) ∧
    (connect_lower 2 3 [⟨1, 1⟩, ⟨1, 1⟩] =
        .ok ⟨1, 1⟩ [⟨0, ⟨1, 1⟩⟩, ⟨1, ⟨1, 1⟩⟩] →
      ([⟨0, ⟨1, 1⟩⟩, ⟨1, ⟨1, 1⟩⟩] : List Conn).length = 2)) ∧
    connect_lower 2 3 [⟨1, 1⟩, ⟨1, 1⟩] = .ok ⟨1, 1⟩ [⟨0, ⟨1, 1⟩⟩, ⟨1, ⟨1, 1⟩⟩] :=
  ⟨connect_lower_dial_loop 2 3 ⟨1, 1⟩ ⟨0, 0⟩ [⟨0, ⟨1, 1⟩⟩] [] [⟨1, 1⟩, ⟨1, 1⟩]
      ⟨1, 1⟩ [⟨0, ⟨1, 1⟩⟩, ⟨1, ⟨1, 1⟩⟩] (by norm_num),
    by decide⟩

/-! Helper lemmas for the accept-loop invariant and the result shape. -/

theorem eq_map_some_of_no_none (sockets : List (Option Conn))
    (hall : ∀ x ∈ sockets, x.isNone = false) :
    sockets = (sockets.filterMap (fun s => s)).map some := by
  induction sockets with
  | nil => rfl
  | cons x t ih =>
    rcases x with _ | c
    · exact absurd (hall none (by simp)) (by simp)
    · simp only [List.filterMap_cons, List.map_cons]
      rw [← ih (fun y hy => hall y (by simp [hy]))]

theorem acceptStep_cont_spec (myIndex : Nat) (myEpoch : Epoch)
    (sockets s2 : List (Option Conn)) (ev : AcceptEvent)
    (h : acceptStep myIndex myEpoch sockets ev = .cont s2) :
    s2.length = sockets.length ∧
    ((∀ i : Nat, ∀ c : Conn, sockets[i]? = some (some c) → c.index = myIndex + 1 + i) →
      ∀ i : Nat, ∀ c : Conn, s2[i]? = some (some c) → c.index = myIndex + 1 + i) := by
  rcases ev with _ | ⟨idx, ex⟩
  · have h2 : AcceptStep.cont sockets = .cont s2 := h
    injection h2 with h3
    subst h3
    exact ⟨rfl, fun hP => hP⟩
  · simp only [acceptStep] at h
    by_cases hin : myIndex + 1 ≤ idx ∧ idx - (myIndex + 1) < sockets.length
    · rw [dif_pos hin] at h
      by_cases hfill : (sockets.get ⟨idx - (myIndex + 1), hin.2⟩).isSome = true
      · rw [if_pos hfill] at h
        exact absurd h (by simp)
      · rw [if_neg hfill] at h
        rcases ex with _ | pe
        · have h2 : AcceptStep.cont sockets = .cont s2 := h
          injection h2 with h3
          subst h3
          exact ⟨rfl, fun hP => hP⟩
        · have h2 : ((match Epoch.compare pe myEpoch with
              | Ordering.lt => AcceptStep.cont sockets
              | Ordering.gt => AcceptStep.fail (.epochMismatch idx pe myEpoch)
              | Ordering.eq => AcceptStep.cont
                  (sockets.set (idx - (myIndex + 1))
                    (some ⟨idx, pe⟩)) : AcceptStep)) = .cont s2 := h
          rcases hc : Epoch.compare pe myEpoch with _ | _ | _ <;> rw [hc] at h2
          · injection h2 with h3
            subst h3
            exact ⟨rfl, fun hP => hP⟩
          · injection h2 with h3
            subst h3
            refine ⟨by rw [List.length_set], fun hP i c hci => ?_⟩
            by_cases hij : idx - (myIndex + 1) = i
            · subst hij
              rw [List.getElem?_set_self hin.2] at hci
              have hc2 : Conn.mk idx pe = c :=
                Option.some.inj (Option.some.inj hci)
              rw [← hc2]
              show idx = myIndex + 1 + (idx - (myIndex + 1))
              omega
            · rw [List.getElem?_set_ne hij] at hci
              exact hP i c hci
          · exact absurd h2 (by simp)
    · rw [dif_neg hin] at h
      exact absurd h (by simp)

theorem acceptExit_spec (myIndex : Nat) (myEpoch : Epoch)
    (sockets : List (Option Conn)) (out : List Conn)
    (hany : ¬ sockets.any (fun s => s.isNone) = true)
    (h : AcceptOut.ok (sockets.filterMap (fun s => s)) = .ok out)
    (hP : ∀ i : Nat, ∀ c : Conn, sockets[i]? = some (some c) →
      c.index = myIndex + 1 + i) :
    out.length = sockets.length ∧
    ∀ i : Nat, ∀ c : Conn, out[i]? = some c → c.index = myIndex + 1 + i := by
  have hall : ∀ x ∈ sockets, x.isNone = false := by
    intro x hx
    by_contra hxn
    exact hany (List.any_eq_true.2 ⟨x, hx, by simpa using hxn⟩)
  have hmap := eq_map_some_of_no_none sockets hall
  injection h with h3
  subst h3
  constructor
  · conv_rhs => rw [hmap]
    rw [List.length_map]
  · intro i c hc
    refine hP i c ?_
    conv_lhs => rw [hmap]
    rw [List.getElem?_map, hc]
    rfl

theorem acceptLoop_ok_spec (myIndex : Nat) (myEpoch : Epoch)
    (events : List AcceptEvent) :
    ∀ (sockets : List (Option Conn)) (out : List Conn),
      acceptLoop myIndex myEpoch sockets events = .ok out →
      (∀ i : Nat, ∀ c : Conn, sockets[i]? = some (some c) →
        c.index = myIndex + 1 + i) →
      out.length = sockets.length ∧
      ∀ i : Nat, ∀ c : Conn, out[i]? = some c → c.index = myIndex + 1 + i := by
  induction events with
  | nil =>
    intro sockets out h hP
    rw [acceptLoop] at h
    by_cases hany : sockets.any (fun s => s.isNone) = true
    · rw [if_pos hany] at h
      exact absurd h (by simp)
    · rw [if_neg hany] at h
      exact acceptExit_spec myIndex myEpoch sockets out hany h hP
  | cons ev rest ih =>
    intro sockets out h hP
    rw [acceptLoop] at h
    by_cases hany : sockets.any (fun s => s.isNone) = true
    · rw [if_pos hany] at h
      rcases hs : acceptStep myIndex myEpoch sockets ev with s2 | err | _ <;>
        rw [hs] at h
      · obtain ⟨hlen2, hP2⟩ := acceptStep_cont_spec myIndex myEpoch sockets s2 ev hs
        obtain ⟨hlen3, hidx⟩ := ih s2 out h (hP2 hP)
        exact ⟨by rw [hlen3, hlen2], hidx⟩
      · exact absurd h (by simp)
      · exact absurd h (by simp)
    · rw [if_neg hany] at h
      exact acceptExit_spec myIndex myEpoch sockets out hany h hP

theorem accept_higher_ok_spec (myIndex : Nat) (myEpoch : Epoch) (nPeers : Nat)
    (events : List AcceptEvent) (out : List Conn)
    (h : accept_higher myIndex myEpoch nPeers events = .ok out) :
    out.length = nPeers - (myIndex + 1) ∧
    ∀ i : Nat, ∀ c : Conn, out[i]? = some c → c.index = myIndex + 1 + i := by
  rw [accept_higher] at h
  split at h
  · have hrep : ∀ i : Nat, ∀ c : Conn,
        (List.replicate (nPeers - (myIndex + 1)) (none : Option Conn))[i]? =
          some (some c) → c.index = myIndex + 1 + i := by
      intro i c hc
      rw [List.getElem?_replicate] at hc
      split at hc
      · exact absurd (Option.some.inj hc) (by simp)
      · exact absurd hc (by simp)
    obtain ⟨hlen, hidx⟩ := acceptLoop_ok_spec myIndex myEpoch events _ out h hrep
    rw [List.length_replicate] at hlen
    exact ⟨hlen, hidx⟩
  · exact absurd h (by simp)

theorem afterBind_ok_inv (myIndex nAddresses : Nat) (lowerResult : DialOut)
    (acceptEvents : List AcceptEvent) (v : List (Option Conn))
    (h : afterBind myIndex nAddresses lowerResult acceptEvents = .ok v) :
    ∃ myEpoch lower higher, lowerResult = .ok myEpoch lower ∧
      accept_higher myIndex myEpoch nAddresses acceptEvents = .ok higher ∧
      v = lower.map some ++ [none] ++ higher.map some := by
  rcases lowerResult with ⟨me0, s0⟩ | err | _ | ⟨myEpoch, lower⟩
  · exact absurd h (by simp [afterBind])
  · exact absurd h (by simp [afterBind])
  · exact absurd h (by simp [afterBind])
  · rw [afterBind] at h
    rcases hhigh : accept_higher myIndex myEpoch nAddresses acceptEvents with
      _ | err2 | _ | higher <;> rw [hhigh] at h
    · exact absurd h (by simp)
    · exact absurd h (by simp)
    · exact absurd h (by simp)
    · have h2 : CreateOut.ok (lower.map some ++ [none] ++ higher.map some) =
          .ok v := h
      injection h2 with h3
      exact ⟨myEpoch, lower, higher, rfl, hhigh, h3.symm⟩

/-- C1: when `create_sockets` returns successfully for `N ≥ 1` addresses and
`my_index < N`, the result has exactly N entries; entry `my_index` is `None`;
and every other entry `i` holds the socket connected to peer `i` — the lower
sockets occupy positions `0..my_index` in strictly increasing peer order and
the higher sockets are slotted by index at positions `my_index+1..N`, so the
vector is ordered by peer index. -/
theorem create_sockets_result_shape (myIndex : Nat) (addresses : List String)
    (bindAttempts : Nat → Except Nat Unit) (minted : Epoch)
    (dialEvents : List Epoch) (acceptEvents : List AcceptEvent)
    (v : List (Option Conn))
    (hn : 1 ≤ addresses.length) (hmi : myIndex < addresses.length)
    (hok : create_sockets myIndex addresses bindAttempts minted dialEvents
        acceptEvents = .ok v) :
    v.length = addresses.length ∧
    v[myIndex]? = some none ∧
    (∀ i : Nat, i < addresses.length → i ≠ myIndex →
      ∃ c : Conn, v[i]? = some (some c) ∧ c.index = i) := by
  rw [create_sockets, dif_pos hmi] at hok
  rcases hr : runRetry bindAttempts 0 (bindMaxTries - 1) with er | u <;>
    rw [hr] at hok
  · exact absurd hok (by simp)
  · have hok2 : afterBind myIndex addresses.length
        (if myIndex = 0 then DialOut.ok minted []
         else connect_lower myIndex addresses.length dialEvents)
        acceptEvents = .ok v := hok
    obtain ⟨myEpoch, lower, higher, hlow, hhigh, hv⟩ :=
      afterBind_ok_inv _ _ _ _ _ hok2
    have hlower_spec : lower.length = myIndex ∧
        ∀ i : Nat, ∀ c : Conn, lower[i]? = some c → c.index = i := by
      by_cases h0 : myIndex = 0
      · rw [if_pos h0] at hlow
        injection hlow with he hs
        refine ⟨?_, ?_⟩
        · rw [← hs]
          exact h0.symm
        · intro i c hc
          rw [← hs] at hc
          exact absurd hc (by simp)
      · rw [if_neg h0] at hlow
        exact connect_lower_ok_spec _ _ _ _ _ hlow
    obtain ⟨hlenL, hidxL⟩ := hlower_spec
    obtain ⟨hlenH, hidxH⟩ := accept_higher_ok_spec _ _ _ _ _ hhigh
    subst hv
    have hlenA : (lower.map some).length = myIndex := by
      rw [List.length_map, hlenL]
    have hlen1 : (lower.map some ++ [none]).length = myIndex + 1 := by
      rw [List.length_append, hlenA]
      rfl
    refine ⟨?_, ?_, ?_⟩
    · rw [List.length_append, hlen1, List.length_map, hlenH]
      omega
    · rw [List.getElem?_append, if_pos (by omega)]
      rw [List.getElem?_append, if_neg (by omega)]
      rw [hlenA]
      simp
    · intro i hiN hine
      by_cases hilt : i < myIndex
      · have hi2 : i < lower.length := by omega
        rw [List.getElem?_append, if_pos (by omega)]
        rw [List.getElem?_append, if_pos (by omega)]
        rw [List.getElem?_map, List.getElem?_eq_getElem hi2]
        exact ⟨lower[i], by simp, hidxL i (lower[i]) (List.getElem?_eq_getElem hi2)⟩
      · have higt : myIndex + 1 ≤ i := by omega
        have hj : i - (myIndex + 1) < higher.length := by omega
        rw [List.getElem?_append, if_neg (by omega)]
        rw [hlen1, List.getElem?_map, List.getElem?_eq_getElem hj]
        refine ⟨higher[i - (myIndex + 1)], by simp, ?_⟩
        have h5 := hidxH (i - (myIndex + 1)) (higher[i - (myIndex + 1)])
          (List.getElem?_eq_getElem hj)
        omega

/-- Witness for C1: a single process (N = 1, my_index = 0, no dialing, no
accepting) returns the one-entry vector `[None]`. -/
theorem create_sockets_result_shape_witness :
    ([(none : Option Conn)].length = (["a"] : List String).length ∧
      [(none : Option Conn)][0]? = some none ∧
      (∀ i : Nat, i < (["a"] : List String).length → i ≠ 0 →
        ∃ c : Conn, [(none : Option Conn)][i]? = some (some c) ∧ c.index = i)) ∧
    create_sockets 0 ["a"] (fun _ => .ok ()) ⟨0, 0⟩ [] [] = .ok [none] :=
  ⟨create_sockets_result_shape 0 ["a"] (fun _ => .ok ()) ⟨0, 0⟩ [] [] [none]
      (by norm_num) (by norm_num) rfl,
    rfl⟩

/-! Helper lemmas for the listen-address claim. -/

theorem takeWhile_append_all (p : Char → Bool) (xs : List Char) (y : Char)
    (ys : List Char) (hxs : ∀ c ∈ xs, p c = true) (hy : p y = false) :
    (xs ++ y :: ys).takeWhile p = xs ∧ (xs ++ y :: ys).dropWhile p = y :: ys := by
  induction xs with
  | nil =>
    simp [List.takeWhile_cons, List.dropWhile_cons, hy]
  | cons x xs ih =>
    have hx : p x = true := hxs x (by simp)
    obtain ⟨h1, h2⟩ := ih (fun c hc => hxs c (by simp [hc]))
    constructor
    · rw [List.cons_append, List.takeWhile_cons, if_pos hx, h1]
    · rw [List.cons_append, List.dropWhile_cons, if_pos hx, h2]

theorem portCapture_some_iff (s ds : List Char) :
    portCapture s = some ds ↔
      (∃ pre : List Char, s = pre ++ ':' :: ds) ∧
      (∀ c ∈ ds, c.isDigit = true) ∧ 1 ≤ ds.length ∧ ds.length ≤ 5 := by
  constructor
  · intro h
    simp only [portCapture] at h
    split at h
    case isTrue hcond =>
      obtain ⟨h1, h5, hhead⟩ := hcond
      have hds : trailingDigits s = ds := Option.some.inj h
      subst hds
      refine ⟨?_, ?_, h1, h5⟩
      · rcases hdrop : s.reverse.dropWhile (fun c => c.isDigit) with _ | ⟨d, t⟩
        · rw [hdrop] at hhead
          exact absurd hhead (by simp)
        · rw [hdrop] at hhead
          have hd : d = ':' := by
            have h2 : some d = some ':' := hhead
            exact Option.some.inj h2
          subst hd
          refine ⟨t.reverse, ?_⟩
          have hsplit := List.takeWhile_append_dropWhile (fun c => c.isDigit) s.reverse
          rw [hdrop] at hsplit
          conv_lhs => rw [← List.reverse_reverse s, ← hsplit]
          rw [List.reverse_append]
          simp [trailingDigits, List.append_assoc]
      · intro c hc
        rw [trailingDigits, List.mem_reverse] at hc
        exact List.mem_takeWhile_imp hc
    case isFalse hcond =>
      exact absurd h (by simp)
  · rintro ⟨⟨pre, hs⟩, hd, h1, h5⟩
    have hrev : s.reverse = ds.reverse ++ ':' :: pre.reverse := by
      rw [hs]
      simp [List.reverse_append, List.append_assoc]
    obtain ⟨htake, hdrop⟩ := takeWhile_append_all (fun c => c.isDigit) ds.reverse ':'
      pre.reverse (fun c hc => hd c (List.mem_reverse.1 hc)) (by decide)
    have htd : trailingDigits s = ds := by
      rw [trailingDigits, hrev, htake, List.reverse_reverse]
    simp only [portCapture]
    rw [htd, hrev, hdrop]
    rw [if_pos ⟨h1, h5, rfl⟩]

/-- C7: the bind address is derived from the configured address by exactly one
parse. When the address ends in a colon followed by one to five digits (the
regex `:(\d{1,5})$` matches), the listen address is `0.0.0.0:` followed by
those digits; otherwise the listen address is the address verbatim. Addresses
are modelled as their character lists. -/
theorem listen_address_spec (s : List Char) :
    (∀ pre ds : List Char, s = pre ++ ':' :: ds →
      (∀ c ∈ ds, c.isDigit = true) → 1 ≤ ds.length → ds.length ≤ 5 →
      listenAddressChars s = "0.0.0.0:".data ++ ds) ∧
    ((¬ ∃ pre ds : List Char, s = pre ++ ':' :: ds ∧
        (∀ c ∈ ds, c.isDigit = true) ∧ 1 ≤ ds.length ∧ ds.length ≤ 5) →
      listenAddressChars s = s) := by
  constructor
  · intro pre ds hs hd h1 h5
    rw [listenAddressChars, (portCapture_some_iff s ds).2 ⟨⟨pre, hs⟩, hd, h1, h5⟩]
  · intro hno
    rw [listenAddressChars]
    rcases hpc : portCapture s with _ | ds
    · rfl
    · obtain ⟨⟨pre, hs⟩, hd, h1, h5⟩ := (portCapture_some_iff s ds).1 hpc
      exact absurd ⟨pre, ds, hs, hd, h1, h5⟩ hno

/-- Witness for C7: the address `host:6875` yields the listen address
`0.0.0.0:6875`, and (applying the theorem a second way) an address with no
port suffix is kept verbatim. -/
theorem listen_address_spec_witness :
    listenAddressChars "host:6875".data = "0.0.0.0:".data ++ ['6', '8', '7', '5'] ∧
    listenAddressChars "/path/sock".data = "/path/sock".data :=
  ⟨(listen_address_spec "host:6875".data).1 "host".data ['6', '8', '7', '5']
      (by decide) (by decide) (by decide) (by decide),
    (listen_address_spec "/path/sock".data).2 (by
      rintro ⟨pre, ds, hs, hd, h1, h5⟩
      have hmem : ':' ∈ "/path/sock".data := by
        rw [hs]
        simp
      exact absurd hmem (by decide))⟩

end Communication
